import Mathlib

/-!
Shallow embedding of the stocksTUI market-data cache / fetch-gating engine
(`src/stockstui/data_providers/market_provider.py`) and of its persistent
SQLite store (`src/stockstui/database/db_manager.py`).

Modelling conventions:
* Python dicts become association lists (`Dict α`): lookup finds the first
  matching key, assignment replaces the first matching entry in place or
  appends a fresh one.  The code only ever builds key-unique dicts (Python
  dicts cannot hold duplicate keys), and theorems that need uniqueness carry
  an explicit `Nodup` hypothesis on the key list.
* Wall-clock instants (`datetime` objects and SQLite REAL timestamps) are
  modelled as `Int` seconds since the epoch; `datetime` subtraction followed
  by `.total_seconds()` becomes integer subtraction, and the
  datetime-to-unix-float conversion used by the DB layer becomes the
  identity on those integers.
* Numeric price fields are floats that the engine only passes through and
  compares to `None`; their values are modelled as `Option Int` (`none`
  standing for Python `None`/absent).  A Python dict `.get(key, default)`
  collapses "key absent" and "key maps to None" to `none`.
* Remote I/O (`yfinance` calls) and the `pandas_market_calendars` oracle are
  environment parameters: a function from symbol to fetch outcome and a
  function from calendar name to calendar query outcome.
-/

namespace StocksTUI

/-- Association-list model of a Python `dict` with `String` keys. -/
abbrev Dict (α : Type) := List (String × α)

/-- Python `d.get(k)`: first entry whose key matches, if any. -/
def dictGet {α : Type} : Dict α → String → Option α
  | [], _ => none
  | (k', v) :: d, k => if k' = k then some v else dictGet d k

/-- Python `d[k] = v`: replace the first entry with key `k` in place, or
append a new entry when the key is absent. -/
def dictInsert {α : Type} : Dict α → String → α → Dict α
  | [], k, v => [(k, v)]
  | (k', v') :: d, k, v => if k' = k then (k, v) :: d else (k', v') :: dictInsert d k v

/-- The key list of a dict. -/
def dictKeys {α : Type} (d : Dict α) : List String := d.map (fun p => p.1)

theorem dictGet_insert_self {α : Type} (d : Dict α) (k : String) (v : α) :
    dictGet (dictInsert d k v) k = some v := by
  induction d with
  | nil => simp [dictInsert, dictGet]
  | cons p d ih =>
    obtain ⟨k', v'⟩ := p
    by_cases h : k' = k
    · simp [dictInsert, h, dictGet]
    · simp [dictInsert, h, dictGet, ih]

theorem dictGet_insert_ne {α : Type} (d : Dict α) (k : String) (v : α) (k' : String)
    (h : ¬ k' = k) : dictGet (dictInsert d k v) k' = dictGet d k' := by
  induction d with
  | nil => simp [dictInsert, dictGet, Ne.symm h]
  | cons p d ih =>
    obtain ⟨k₀, v₀⟩ := p
    by_cases h0 : k₀ = k
    · subst h0
      simp [dictInsert, dictGet, Ne.symm h]
    · simp [dictInsert, h0, dictGet, ih]

theorem mem_dictKeys_insert {α : Type} (d : Dict α) (k : String) (v : α) (u : String)
    (h : u ∈ dictKeys (dictInsert d k v)) : u ∈ dictKeys d ∨ u = k := by
  induction d with
  | nil =>
    simp only [dictInsert, dictKeys, List.map_cons, List.map_nil, List.mem_singleton] at h
    exact Or.inr h
  | cons p d ih =>
    obtain ⟨k₀, v₀⟩ := p
    by_cases h0 : k₀ = k
    · rw [show dictInsert ((k₀, v₀) :: d) k v = (k, v) :: d from by simp [dictInsert, h0]] at h
      simp only [dictKeys, List.map_cons, List.mem_cons] at h ⊢
      rcases h with h | h
      · exact Or.inr h
      · exact Or.inl (Or.inr h)
    · rw [show dictInsert ((k₀, v₀) :: d) k v = (k₀, v₀) :: dictInsert d k v from by
        simp [dictInsert, h0]] at h
      simp only [dictKeys, List.map_cons, List.mem_cons] at h ⊢
      rcases h with h | h
      · exact Or.inl (Or.inl h)
      · rcases ih h with hh | hh
        · exact Or.inl (Or.inr hh)
        · exact Or.inr hh

theorem dictKeys_insert_nodup {α : Type} (d : Dict α) (k : String) (v : α)
    (h : (dictKeys d).Nodup) : (dictKeys (dictInsert d k v)).Nodup := by
  induction d with
  | nil => simp [dictInsert, dictKeys]
  | cons p d ih =>
    obtain ⟨k₀, v₀⟩ := p
    simp only [dictKeys, List.map_cons, List.nodup_cons] at h
    by_cases h0 : k₀ = k
    · rw [show dictInsert ((k₀, v₀) :: d) k v = (k, v) :: d from by simp [dictInsert, h0]]
      simp only [dictKeys, List.map_cons, List.nodup_cons]
      subst h0
      exact h
    · rw [show dictInsert ((k₀, v₀) :: d) k v = (k₀, v₀) :: dictInsert d k v from by
        simp [dictInsert, h0]]
      simp only [dictKeys, List.map_cons, List.nodup_cons]
      refine ⟨fun hmem => ?_, ih h.2⟩
      rcases mem_dictKeys_insert d k v k₀ hmem with hh | hh
      · exact h.1 hh
      · exact h0 hh

theorem dictGet_eq_some_mem {α : Type} (d : Dict α) (k : String) (v : α)
    (h : dictGet d k = some v) : (k, v) ∈ d := by
  induction d with
  | nil => simp [dictGet] at h
  | cons p d ih =>
    obtain ⟨k₀, v₀⟩ := p
    by_cases h0 : k₀ = k
    · subst h0
      rw [show dictGet ((k₀, v₀) :: d) k₀ = some v₀ from by simp [dictGet]] at h
      injection h with h
      subst h
      exact List.mem_cons_self _ _
    · rw [show dictGet ((k₀, v₀) :: d) k = dictGet d k from by simp [dictGet, h0]] at h
      exact List.mem_cons_of_mem _ (ih h)

theorem dictGet_eq_some_of_mem {α : Type} (d : Dict α) (k : String) (v : α)
    (hnd : (dictKeys d).Nodup) (h : (k, v) ∈ d) : dictGet d k = some v := by
  induction d with
  | nil => simp at h
  | cons p d ih =>
    obtain ⟨k₀, v₀⟩ := p
    simp only [dictKeys, List.map_cons, List.nodup_cons] at hnd
    rcases List.mem_cons.mp h with h | h
    · cases h
      simp [dictGet]
    · have hk : ¬ k₀ = k := by
        intro hh
        subst hh
        exact hnd.1 (by simpa using List.mem_map_of_mem (fun p => p.1) h)
      rw [show dictGet ((k₀, v₀) :: d) k = dictGet d k from by simp [dictGet, hk]]
      exact ih hnd.2 h

theorem foldInsert_get_not_mem {α β : Type} (key : α → String) (val : α → β)
    (l : List α) (d0 : Dict β) (k : String) (h : k ∉ l.map key) :
    dictGet (l.foldl (fun d e => dictInsert d (key e) (val e)) d0) k = dictGet d0 k := by
  induction l generalizing d0 with
  | nil => rfl
  | cons a l ih =>
    simp only [List.map_cons, List.mem_cons, not_or] at h
    simp only [List.foldl_cons]
    rw [ih _ h.2]
    exact dictGet_insert_ne d0 (key a) (val a) k h.1

theorem foldInsert_get_mem {α β : Type} (key : α → String) (val : α → β)
    (l : List α) (d0 : Dict β) (e : α) (he : e ∈ l) (hnd : (l.map key).Nodup) :
    dictGet (l.foldl (fun d x => dictInsert d (key x) (val x)) d0) (key e) = some (val e) := by
  revert he hnd
  induction l generalizing d0 with
  | nil => intro he _; simp at he
  | cons a l ih =>
    intro he hnd
    simp only [List.map_cons, List.nodup_cons] at hnd
    rcases List.mem_cons.mp he with he' | he'
    · subst he'
      simp only [List.foldl_cons]
      rw [foldInsert_get_not_mem key val l _ _ hnd.1, dictGet_insert_self]
    · simp only [List.foldl_cons]
      exact ih _ he' hnd.2

/-! ### Market provider: constants and data model
Translated from `src/stockstui/data_providers/market_provider.py`. -/

/-- Freshness window (seconds) for cached data when a market is OPEN. -/
def CACHE_OPEN_MARKET_SECONDS : Int := 300

/-- Freshness window (seconds) for cached data when a market is CLOSED. -/
def CACHE_CLOSED_MARKET_SECONDS : Int := 86400

/-- Result of `get_market_status` (a Python dict with keys `status`,
`is_open` and, on most paths, `calendar`; `none` models an absent key). -/
structure MarketStatusR where
  status : String
  is_open : Bool
  calendar : Option String
deriving DecidableEq

/-- Outcome of the `pandas_market_calendars` computation inside the `try`
block of `get_market_status`: an exception anywhere in the block, an empty
schedule for today, or a session row with the market open/close instants and
the current instant in the calendar's timezone. -/
inductive MCalOutcome where
  | err
  | emptySchedule
  | session (market_open : Int) (market_close : Int) (now : Int)
deriving DecidableEq

/-- Environment for `get_market_status`: whether the optional
`pandas_market_calendars` dependency imported, and the calendar query. -/
structure MarketEnv where
  mcalAvailable : Bool
  query : String → MCalOutcome

/-- `get_market_status(calendar_name)`: total function — every failure path
of the source is caught and mapped to a dict, never raised to the caller. -/
def get_market_status (env : MarketEnv) (calendar_name : String) : MarketStatusR :=
  let calendar_name := if calendar_name = "GDAX" then "CME_Crypto" else calendar_name
  if env.mcalAvailable = false then { status := "closed", is_open := false, calendar := none }
  else
    match env.query calendar_name with
    | .emptySchedule => { status := "closed", is_open := false, calendar := some calendar_name }
    | .session mo mc nowv =>
        let session := if mo ≤ nowv ∧ nowv < mc then "open" else "closed"
        { status := session, is_open := decide (session = "open"), calendar := some calendar_name }
    | .err => { status := "unknown", is_open := true,
                calendar := some (if calendar_name = "" then "Unknown" else calendar_name) }

/-- Fields of the `.info` dict returned by the remote provider that the
engine reads.  `none` models a missing key or a `None` value. -/
structure RemoteInfo where
  currency : Option String
  exchange : Option String
  shortName : Option String
  longName : Option String
  currentPrice : Option Int
  regularMarketPrice : Option Int
  previousClose : Option Int
  dayLow : Option Int
  dayHigh : Option Int
  fiftyTwoWeekLow : Option Int
  fiftyTwoWeekHigh : Option Int
deriving DecidableEq

/-- The price-data dict built per ticker by `get_market_price_data_uncached`. -/
structure PriceRecord where
  symbol : String
  description : String
  price : Option Int
  previous_close : Option Int
  day_low : Option Int
  day_high : Option Int
  fifty_two_week_low : Option Int
  fifty_two_week_high : Option Int
deriving DecidableEq

/-- The 3-key dict stored in `_info_cache` on a successful fetch. -/
structure StaticInfo where
  exchange : Option String
  shortName : Option String
  longName : Option String
deriving DecidableEq

/-- A value of `_info_cache`: either the empty dict `\x7b\x7d` cached on a
failed fetch (falsy in Python), or a populated 3-key dict (always truthy,
even when every value inside is None). -/
inductive InfoVal where
  | empty
  | val (si : StaticInfo)
deriving DecidableEq

/-- Python truthiness of an optional string value (`None` and `""` falsy). -/
def strTruthy : Option String → Bool
  | none => false
  | some s => decide (s ≠ "")

/-- Outcome of reading `.info` for one ticker on the remote API: an
exception, or a response that is falsy (`ok none`) or a dict. -/
inductive FetchOutcome where
  | err
  | ok (info : Option RemoteInfo)
deriving DecidableEq

/-- Environment of the provider module: the remote `.info` oracle per symbol
and the market-calendar environment consumed by `get_market_status`. -/
structure FetchEnv where
  fetch : String → FetchOutcome
  market : MarketEnv

/-- The record built on a successful fetch (`info` truthy with truthy
currency).  `info.get('longName', ticker)` and the
`currentPrice`/`regularMarketPrice` fallback become `Option` fallbacks. -/
def fetchedPriceRecord (t : String) (info : RemoteInfo) : PriceRecord where
  symbol := t
  description := info.longName.getD t
  price := match info.currentPrice with
    | some v => some v
    | none => info.regularMarketPrice
  previous_close := info.previousClose
  day_low := info.dayLow
  day_high := info.dayHigh
  fifty_two_week_low := info.fiftyTwoWeekLow
  fifty_two_week_high := info.fiftyTwoWeekHigh

/-- The placeholder record for a ticker whose API response had no data or no
currency field. -/
def invalidTickerRecord (t : String) : PriceRecord :=
  ⟨t, "Invalid Ticker", none, none, none, none, none, none⟩

/-- The placeholder record for a ticker whose remote fetch raised. -/
def unavailableRecord (t : String) : PriceRecord :=
  ⟨t, "Data Unavailable", none, none, none, none, none, none⟩

/-- One iteration of the loop in `get_market_price_data_uncached`: the price
record appended to `data` and the value written to `_info_cache`. -/
def uncachedFetchOne (env : FetchEnv) (t : String) : PriceRecord × InfoVal :=
  match env.fetch t with
  | .err => (unavailableRecord t, .empty)
  | .ok oi =>
    match oi with
    | some info =>
      if strTruthy info.currency then
        (fetchedPriceRecord t info, .val ⟨info.exchange, info.shortName, info.longName⟩)
      else (invalidTickerRecord t, .empty)
    | none => (invalidTickerRecord t, .empty)

/-- The per-ticker loop of `get_market_price_data_uncached`, threading the
`_info_cache` writes left to right. -/
def uncachedGo (env : FetchEnv) : List String → Dict InfoVal → List PriceRecord × Dict InfoVal
  | [], ic => ([], ic)
  | t :: ts, ic =>
    let one := uncachedFetchOne env t
    let rest := uncachedGo env ts (dictInsert ic t one.2)
    (one.1 :: rest.1, rest.2)

/-- `get_market_price_data_uncached(tickers)`: returns the fetched price
records (one per requested ticker, in request order) and the updated
`_info_cache`. -/
def get_market_price_data_uncached (env : FetchEnv) (tickers : List String)
    (ic : Dict InfoVal) : List PriceRecord × Dict InfoVal :=
  if tickers = [] then ([], ic) else uncachedGo env tickers ic

/-- The two in-memory caches of the provider module: `_price_cache`
(symbol to (timestamp, record)) and `_info_cache`. -/
structure CacheState where
  price : Dict (Int × PriceRecord)
  info : Dict InfoVal
deriving DecidableEq

/-- The `is_open` resolution in the gatekeeper loop: unknown or failed
static info (or a falsy exchange) defaults the market to open; otherwise the
market-status oracle is consulted for the cached exchange. -/
def marketOpenFor (env : FetchEnv) (st : CacheState) (t : String) : Bool :=
  match dictGet st.info t with
  | some (.val si) =>
      if strTruthy si.exchange then (get_market_status env.market (si.exchange.getD "")).is_open
      else true
  | _ => true

/-- The freshness window picked for a ticker: `CACHE_OPEN_MARKET_SECONDS`
when its market is (assumed) open, else `CACHE_CLOSED_MARKET_SECONDS`. -/
def freshnessWindow (env : FetchEnv) (st : CacheState) (t : String) : Int :=
  if marketOpenFor env st t then CACHE_OPEN_MARKET_SECONDS else CACHE_CLOSED_MARKET_SECONDS

/-- Whether the gatekeeper loop serves `t` from cache (the `continue`
branch): a cache entry exists and its age is strictly below the window. -/
def tickerIsFresh (env : FetchEnv) (st : CacheState) (now : Int) (t : String) : Bool :=
  match dictGet st.price t with
  | some e => decide (now - e.1 < freshnessWindow env st t)
  | none => false

/-- Python `str.upper()` on a ticker, character by character (tickers are
ASCII). -/
def pyUpper (s : String) : String := ⟨s.data.map Char.toUpper⟩

/-- Normalization loop of `get_market_price_data` line 57: uppercase, drop
falsy entries, de-duplicate keeping the first occurrence (the `seen` set). -/
def normalizeAux (seen : List String) : List String → List String
  | [] => []
  | t :: ts =>
    if t = "" then normalizeAux seen ts
    else if pyUpper t ∈ seen then normalizeAux seen ts
    else pyUpper t :: normalizeAux (pyUpper t :: seen) ts

/-- `valid_tickers` as computed by `get_market_price_data`. -/
def normalizeTickers (tickers : List String) : List String := normalizeAux [] tickers

/-- First-occurrence de-duplication, written the way the spec words it. -/
def dedupFirstAux (seen : List String) : List String → List String
  | [] => []
  | u :: us => if u ∈ seen then dedupFirstAux seen us else u :: dedupFirstAux (u :: seen) us

/-- Normalization as the spec states it: uppercase each symbol, drop
empty/falsy entries, de-duplicate preserving first-occurrence order. -/
def specNormalize (tickers : List String) : List String :=
  dedupFirstAux [] ((tickers.filter (fun t => decide (t ≠ ""))).map pyUpper)

/-- The partition step of the gate: everything on `force_refresh`, else the
tickers that are not fresh, in `valid` order. -/
def gateToFetch (env : FetchEnv) (now : Int) (st : CacheState) (valid : List String)
    (force : Bool) : List String :=
  if force then valid else valid.filter (fun t => ! tickerIsFresh env st now t)

/-- The guarded fetch (`if to_fetch:`): the fetched records and the updated
info cache; no remote call when nothing needs fetching. -/
def gateFetchResult (env : FetchEnv) (st : CacheState) (to_fetch : List String) :
    List PriceRecord × Dict InfoVal :=
  if to_fetch = [] then ([], st.info) else get_market_price_data_uncached env to_fetch st.info

/-- Merging fetched records back into `_price_cache`, each keyed by its
`symbol` with the single batch timestamp `nowTs`. -/
def gateMergedState (nowTs : Int) (st : CacheState) (fr : List PriceRecord × Dict InfoVal) :
    CacheState :=
  ⟨fr.1.foldl (fun d item => dictInsert d item.symbol (nowTs, item)) st.price, fr.2⟩

/-- Observable outcome of one `get_market_price_data` call: the returned
record list, the two module caches after the call, and the ticker list
handed to the remote batch fetch (`[]` when no remote call was issued). -/
structure GateResult where
  result : List PriceRecord
  state : CacheState
  fetched : List String
deriving DecidableEq

/-- `get_market_price_data(tickers, force_refresh)`.  `now` is the instant
taken at the top of the gate, `nowTs` the instant stamped on merged fetch
results.  The final list comprehension keeps, per valid ticker, the payload
of its cache entry; a `PriceRecord` dict is always truthy, so the
payload-truthiness guard of line 90 never discards an entry in this model. -/
def get_market_price_data (env : FetchEnv) (now nowTs : Int) (st : CacheState)
    (tickers : List String) (force_refresh : Bool) : GateResult :=
  let valid := normalizeTickers tickers
  if valid = [] then ⟨[], st, []⟩
  else
    let to_fetch := gateToFetch env now st valid force_refresh
    let st2 := gateMergedState nowTs st (gateFetchResult env st to_fetch)
    ⟨valid.filterMap (fun t => (dictGet st2.price t).map (fun e => e.2)), st2, to_fetch⟩

/-- `get_ticker_info(ticker)`: result (`none` models Python `None`), the
info cache afterwards, and whether a remote call was performed. -/
def get_ticker_info (env : FetchEnv) (ic : Dict InfoVal) (t : String) :
    Option InfoVal × Dict InfoVal × Bool :=
  match dictGet ic t with
  | some v => (some v, ic, false)
  | none =>
    match env.fetch t with
    | .err => (none, dictInsert ic t .empty, true)
    | .ok none => (none, dictInsert ic t .empty, true)
    | .ok (some info) =>
      if info.currency = none then (none, dictInsert ic t .empty, true)
      else
        (some (.val ⟨info.exchange, info.shortName, info.longName⟩),
         dictInsert ic t (.val ⟨info.exchange, info.shortName, info.longName⟩), true)

/-- The info cache left after a sequence of further `get_ticker_info` calls
(for arbitrary symbols), starting from `ic`. -/
def infoCallsChain (env : FetchEnv) (ic : Dict InfoVal) : List String → Dict InfoVal
  | [] => ic
  | u :: us => infoCallsChain env (get_ticker_info env ic u).2.1 us

/-! ### Persistent store
Translated from `src/stockstui/database/db_manager.py`. -/

/-- Only load data into memory if it is less than a day old. -/
def CACHE_LOAD_DURATION_SECONDS : Int := 86400

/-- Prune data from the database file older than 7 days. -/
def CACHE_PRUNE_EXPIRY_SECONDS : Int := 604800

/-- A JSON value, standing for the `json.dumps` text stored in the `data`
column (serialize-then-parse of such a value is the identity). -/
inductive JVal where
  | null
  | jbool (b : Bool)
  | jnum (n : Int)
  | jstr (s : String)
  | jarr (xs : List JVal)
  | jobj (fields : List (String × JVal))

/-- A Python value held in the in-memory cache: either JSON-serializable
(`json j`) or a value `json.dumps` rejects with `TypeError`. -/
inductive PyVal where
  | json (j : JVal)
  | other

/-- `json.dumps`: succeeds exactly on serializable values. -/
def dumps : PyVal → Option JVal
  | .json j => some j
  | .other => none

/-- `json.loads` of a stored `data` column (stored text is always the dump
of a serializable value, so parsing cannot fail in this model). -/
def loads (j : JVal) : PyVal := .json j

/-- The `price_cache` table: ticker (PRIMARY KEY) to (data JSON, REAL unix
timestamp). -/
structure Db where
  rows : Dict (JVal × Int)

/-- A `DbManager`: `conn = none` models a `sqlite3.Error` during `__init__`
(inaccessible path), after which every method body early-returns. -/
structure DbManager where
  conn : Option Db

/-- `_prune_expired_entries`: deletes rows with
`timestamp < now - CACHE_PRUNE_EXPIRY_SECONDS` and reports `cursor.rowcount`
(the number of deleted rows); a no-op without a connection. -/
def prune_expired_entries (now : Int) (m : DbManager) : DbManager × Nat :=
  match m.conn with
  | none => (m, 0)
  | some db =>
    let cutoff := now - CACHE_PRUNE_EXPIRY_SECONDS
    (⟨some ⟨db.rows.filter (fun r => ! decide (r.2.2 < cutoff))⟩⟩,
     (db.rows.filter (fun r => decide (r.2.2 < cutoff))).length)

/-- Outcome of the fallible steps of `DbManager.__init__`:
`self.db_path.parent.mkdir(parents=True, exist_ok=True)` (line 31) may
raise an `OSError` (e.g. `PermissionError`, or `NotADirectoryError` when a
parent component is a file), which the `except sqlite3.Error` clause does
NOT catch; `sqlite3.connect` plus `_create_tables`/pruning may raise a
`sqlite3.Error`, which is caught and logged; otherwise the connection opens
over the existing table contents (`⟨[]⟩` for a freshly created file). -/
inductive OpenOutcome where
  | mkdirOSError
  | sqliteError
  | opened (db : Db)

/-- `DbManager.__init__`: `Except.error ()` models the uncaught `OSError`
from the parent-directory `mkdir` propagating out of the constructor (no
caller in the sources handles it); a caught `sqlite3.Error` is logged and
leaves `conn = None`; on success pruning runs once and the connection is
held. -/
def DbManager.openDb (outcome : OpenOutcome) (now : Int) : Except Unit DbManager :=
  match outcome with
  | .mkdirOSError => .error ()
  | .sqliteError => .ok ⟨none⟩
  | .opened db => .ok (prune_expired_entries now ⟨some db⟩).1

/-- `load_cache_from_db`: selects rows with
`timestamp >= now - CACHE_LOAD_DURATION_SECONDS` and builds the in-memory
dict symbol to (timestamp, parsed payload), row by row.  The connection is
returned untouched: the method only reads. -/
def load_cache_from_db (now : Int) (m : DbManager) : DbManager × Dict (Int × PyVal) :=
  match m.conn with
  | none => (m, [])
  | some db =>
    let cutoff := now - CACHE_LOAD_DURATION_SECONDS
    let fresh := db.rows.filter (fun r => decide (r.2.2 ≥ cutoff))
    (m, fresh.foldl (fun d r => dictInsert d r.1 (r.2.2, loads r.2.1)) [])

/-- `save_cache_to_db`: serialize each entry (skipping, not aborting on, a
`TypeError` from `json.dumps`), return early when nothing serialized, else
`INSERT OR REPLACE` every item in one transaction. -/
def save_cache_to_db (cache : Dict (Int × PyVal)) (m : DbManager) : DbManager :=
  match m.conn with
  | none => m
  | some db =>
    let items := cache.filterMap (fun e => (dumps e.2.2).map (fun j => (e.1, (j, e.2.1))))
    match items with
    | [] => m
    | _ => ⟨some ⟨items.foldl (fun rows it => dictInsert rows it.1 it.2) db.rows⟩⟩

/-- `close`: releases the OS handle; it has no observable effect on the
modelled state (the source does not reset `self.conn`). -/
def DbManager.closeDb (m : DbManager) : DbManager := m

/-! ### Helper lemmas about the provider -/

theorem uncachedFetchOne_symbol (env : FetchEnv) (t : String) :
    (uncachedFetchOne env t).1.symbol = t := by
  unfold uncachedFetchOne
  cases env.fetch t with
  | err => rfl
  | ok oi =>
    cases oi with
    | none => rfl
    | some info =>
      by_cases h : strTruthy info.currency = true
      · simp [h, fetchedPriceRecord]
      · simp [h, invalidTickerRecord]

theorem uncachedFetchOne_err (env : FetchEnv) (t : String)
    (he : env.fetch t = FetchOutcome.err) :
    uncachedFetchOne env t = (unavailableRecord t, InfoVal.empty) := by
  unfold uncachedFetchOne
  rw [he]

theorem uncachedGo_symbols (env : FetchEnv) (l : List String) (ic : Dict InfoVal) :
    (uncachedGo env l ic).1.map (fun p => p.symbol) = l := by
  induction l generalizing ic with
  | nil => rfl
  | cons t ts ih => simp [uncachedGo, uncachedFetchOne_symbol, ih]

theorem uncachedGo_mem (env : FetchEnv) (l : List String) (ic : Dict InfoVal)
    (p : PriceRecord) (h : p ∈ (uncachedGo env l ic).1) :
    ∃ u ∈ l, p = (uncachedFetchOne env u).1 := by
  induction l generalizing ic with
  | nil => simp [uncachedGo] at h
  | cons t ts ih =>
    simp only [uncachedGo, List.mem_cons] at h
    rcases h with h | h
    · exact ⟨t, List.mem_cons_self _ _, h⟩
    · obtain ⟨u, hu, hp⟩ := ih _ h
      exact ⟨u, List.mem_cons_of_mem _ hu, hp⟩

theorem uncachedGo_info_not_mem (env : FetchEnv) (l : List String) (ic : Dict InfoVal)
    (u : String) (h : u ∉ l) :
    dictGet (uncachedGo env l ic).2 u = dictGet ic u := by
  induction l generalizing ic with
  | nil => rfl
  | cons t ts ih =>
    simp only [List.mem_cons, not_or] at h
    simp only [uncachedGo]
    rw [ih _ h.2]
    exact dictGet_insert_ne ic t _ u h.1

theorem uncachedGo_info_err (env : FetchEnv) (l : List String) (ic : Dict InfoVal)
    (t : String) (ht : t ∈ l) (he : env.fetch t = FetchOutcome.err) :
    dictGet (uncachedGo env l ic).2 t = some InfoVal.empty := by
  revert ht
  induction l generalizing ic with
  | nil => intro ht; simp at ht
  | cons a ts ih =>
    intro ht
    by_cases hmem : t ∈ ts
    · simp only [uncachedGo]
      exact ih _ hmem
    · have hta : t = a := by
        rcases List.mem_cons.mp ht with h | h
        · exact h
        · exact absurd h hmem
      subst hta
      simp only [uncachedGo]
      rw [uncachedGo_info_not_mem env ts _ t hmem]
      rw [show (uncachedFetchOne env t).2 = InfoVal.empty from by
        rw [uncachedFetchOne_err env t he]]
      exact dictGet_insert_self ic t InfoVal.empty

theorem normalizeAux_not_mem_seen (ts : List String) :
    ∀ seen u, u ∈ normalizeAux seen ts → u ∉ seen := by
  induction ts with
  | nil => intro seen u h; simp [normalizeAux] at h
  | cons t ts ih =>
    intro seen u h
    by_cases h0 : t = ""
    · exact ih seen u (by simpa [normalizeAux, h0] using h)
    · by_cases h1 : pyUpper t ∈ seen
      · exact ih seen u (by simpa [normalizeAux, h0, h1] using h)
      · simp only [normalizeAux, if_neg h0, if_neg h1, List.mem_cons] at h
        rcases h with h | h
        · subst h; exact h1
        · intro hu
          exact ih _ u h (List.mem_cons_of_mem _ hu)

theorem normalizeAux_nodup (ts : List String) : ∀ seen, (normalizeAux seen ts).Nodup := by
  induction ts with
  | nil => intro seen; simp [normalizeAux]
  | cons t ts ih =>
    intro seen
    by_cases h0 : t = ""
    · simpa [normalizeAux, h0] using ih seen
    · by_cases h1 : pyUpper t ∈ seen
      · simpa [normalizeAux, h0, h1] using ih seen
      · simp only [normalizeAux, if_neg h0, if_neg h1, List.nodup_cons]
        refine ⟨fun hmem => ?_, ih _⟩
        exact normalizeAux_not_mem_seen ts _ _ hmem (List.mem_cons_self _ _)

theorem normalizeTickers_nodup (S : List String) : (normalizeTickers S).Nodup :=
  normalizeAux_nodup S []

theorem normalizeAux_eq_dedup (ts : List String) :
    ∀ seen, normalizeAux seen ts
      = dedupFirstAux seen ((ts.filter (fun t => decide (t ≠ ""))).map pyUpper) := by
  induction ts with
  | nil => intro seen; rfl
  | cons t ts ih =>
    intro seen
    by_cases h0 : t = ""
    · simp [normalizeAux, h0, List.filter_cons, ih]
    · by_cases h1 : pyUpper t ∈ seen
      · simp [normalizeAux, h0, h1, List.filter_cons, dedupFirstAux, ih]
      · simp [normalizeAux, h0, h1, List.filter_cons, dedupFirstAux, ih]

theorem normalizeTickers_eq_spec (S : List String) : normalizeTickers S = specNormalize S :=
  normalizeAux_eq_dedup S []

theorem filterMap_map_symbol (valid : List String) (f : String → Option PriceRecord)
    (h : ∀ x ∈ valid, ∃ r, f x = some r ∧ r.symbol = x) :
    (valid.filterMap f).map (fun r => r.symbol) = valid := by
  induction valid with
  | nil => rfl
  | cons x xs ih =>
    obtain ⟨r, hr, hsym⟩ := h x (List.mem_cons_self _ _)
    rw [List.filterMap_cons, hr]
    simp only [List.map_cons, hsym]
    rw [ih (fun y hy => h y (List.mem_cons_of_mem _ hy))]

theorem gateToFetch_subset (env : FetchEnv) (now : Int) (st : CacheState)
    (valid : List String) (force : Bool) (x : String)
    (h : x ∈ gateToFetch env now st valid force) : x ∈ valid := by
  unfold gateToFetch at h
  cases force
  · rw [if_neg (by simp : ¬ (false = true))] at h
    exact (List.mem_filter.mp h).1
  · rw [if_pos rfl] at h
    exact h

theorem gateToFetch_nodup (env : FetchEnv) (now : Int) (st : CacheState)
    (valid : List String) (force : Bool) (h : valid.Nodup) :
    (gateToFetch env now st valid force).Nodup := by
  unfold gateToFetch
  cases force
  · simpa using h.filter _
  · simpa using h

theorem gateToFetch_false_not_mem (env : FetchEnv) (now : Int) (st : CacheState)
    (valid : List String) (x : String) (hx : x ∈ valid)
    (h : x ∉ gateToFetch env now st valid false) :
    tickerIsFresh env st now x = true := by
  unfold gateToFetch at h
  simp only [if_neg (by simp : ¬ (false = true))] at h
  by_contra hc
  have hfalse : tickerIsFresh env st now x = false := by
    cases hb : tickerIsFresh env st now x
    · rfl
    · exact absurd hb hc
  have hmem2 : x ∈ valid.filter (fun t => ! tickerIsFresh env st now t) := by
    rw [List.mem_filter]
    exact ⟨hx, by rw [hfalse]; rfl⟩
  exact h hmem2

theorem gateFetchResult_symbols (env : FetchEnv) (st : CacheState) (tf : List String) :
    (gateFetchResult env st tf).1.map (fun p => p.symbol) = tf := by
  unfold gateFetchResult
  by_cases h : tf = []
  · simp [h]
  · simp only [if_neg h]
    unfold get_market_price_data_uncached
    rw [if_neg h]
    exact uncachedGo_symbols env tf st.info

theorem gateFetchResult_info_not_mem (env : FetchEnv) (st : CacheState) (tf : List String)
    (u : String) (h : u ∉ tf) :
    dictGet (gateFetchResult env st tf).2 u = dictGet st.info u := by
  unfold gateFetchResult
  by_cases h0 : tf = []
  · simp [h0]
  · simp only [if_neg h0]
    unfold get_market_price_data_uncached
    rw [if_neg h0]
    exact uncachedGo_info_not_mem env tf st.info u h

theorem gateMerged_price_not_mem (env : FetchEnv) (st : CacheState) (tf : List String)
    (nowTs : Int) (u : String) (h : u ∉ tf) :
    dictGet (gateMergedState nowTs st (gateFetchResult env st tf)).price u
      = dictGet st.price u := by
  unfold gateMergedState
  have hsym : u ∉ (gateFetchResult env st tf).1.map (fun p => p.symbol) := by
    rw [gateFetchResult_symbols]; exact h
  exact foldInsert_get_not_mem (fun p => p.symbol) (fun p => (nowTs, p))
    (gateFetchResult env st tf).1 st.price u hsym

theorem gateMerged_price_mem (env : FetchEnv) (st : CacheState) (tf : List String)
    (nowTs : Int) (x : String) (hx : x ∈ tf) (hnd : tf.Nodup) :
    ∃ r, r ∈ (gateFetchResult env st tf).1 ∧ r.symbol = x ∧
      dictGet (gateMergedState nowTs st (gateFetchResult env st tf)).price x
        = some (nowTs, r) := by
  have hsyms := gateFetchResult_symbols env st tf
  have hx' : x ∈ (gateFetchResult env st tf).1.map (fun p => p.symbol) := by
    rw [hsyms]; exact hx
  obtain ⟨r, hr, hrx⟩ := List.mem_map.mp hx'
  refine ⟨r, hr, hrx, ?_⟩
  have hnd' : ((gateFetchResult env st tf).1.map (fun p => p.symbol)).Nodup := by
    rw [hsyms]; exact hnd
  have h2 : dictGet ((gateFetchResult env st tf).1.foldl
      (fun d item => dictInsert d item.symbol (nowTs, item)) st.price) r.symbol
      = some (nowTs, r) :=
    foldInsert_get_mem (fun p => p.symbol) (fun p => (nowTs, p))
      (gateFetchResult env st tf).1 st.price r hr hnd'
  rw [hrx] at h2
  exact h2

theorem tickerIsFresh_congr (env : FetchEnv) (n : Int) (u : String) (st1 st2 : CacheState)
    (hi : dictGet st1.info u = dictGet st2.info u)
    (hp : dictGet st1.price u = dictGet st2.price u) :
    tickerIsFresh env st1 n u = tickerIsFresh env st2 n u := by
  unfold tickerIsFresh freshnessWindow marketOpenFor
  rw [hi, hp]

theorem tickerIsFresh_some (env : FetchEnv) (st : CacheState) (now : Int) (t : String)
    (e : Int × PriceRecord) (hget : dictGet st.price t = some e) :
    tickerIsFresh env st now t = decide (now - e.1 < freshnessWindow env st t) := by
  unfold tickerIsFresh
  rw [hget]

theorem freshnessWindow_pos (env : FetchEnv) (st : CacheState) (t : String) :
    0 < freshnessWindow env st t := by
  unfold freshnessWindow
  by_cases h : marketOpenFor env st t = true
  · simp [h, CACHE_OPEN_MARKET_SECONDS]
  · simp [h, CACHE_CLOSED_MARKET_SECONDS]

theorem gate_eq_of_ne_nil (env : FetchEnv) (now nowTs : Int) (st : CacheState)
    (tickers : List String) (force : Bool) (hv : normalizeTickers tickers ≠ []) :
    get_market_price_data env now nowTs st tickers force
      = ⟨(normalizeTickers tickers).filterMap
            (fun tk => (dictGet (gateMergedState nowTs st (gateFetchResult env st
                (gateToFetch env now st (normalizeTickers tickers) force))).price tk).map
              (fun e => e.2)),
          gateMergedState nowTs st (gateFetchResult env st
            (gateToFetch env now st (normalizeTickers tickers) force)),
          gateToFetch env now st (normalizeTickers tickers) force⟩ := by
  simp only [get_market_price_data]
  rw [if_neg hv]

theorem gate_eq_of_nil (env : FetchEnv) (now nowTs : Int) (st : CacheState)
    (tickers : List String) (force : Bool) (hv : normalizeTickers tickers = []) :
    get_market_price_data env now nowTs st tickers force = ⟨[], st, []⟩ := by
  simp only [get_market_price_data]
  rw [if_pos hv]

/-! ### Claim theorems -/

/-- C1: Idempotence of non-forced gating.  Calling
`get_market_price_data(S, force_refresh=False)` twice in immediate
succession (one shared instant `t` for the gate check and the batch
timestamp of both calls, so every entry is still inside its freshness
window and the market-status oracle is unchanged) issues zero remote fetch
calls on the second call, returns an identical record list, and leaves the
caches unchanged. -/
theorem gate_nonforced_idempotent (env : FetchEnv) (t : Int) (st : CacheState)
    (S : List String) :
    (get_market_price_data env t t
        (get_market_price_data env t t st S false).state S false).fetched = []
    ∧ (get_market_price_data env t t
        (get_market_price_data env t t st S false).state S false).result
        = (get_market_price_data env t t st S false).result
    ∧ (get_market_price_data env t t
        (get_market_price_data env t t st S false).state S false).state
        = (get_market_price_data env t t st S false).state := by
  by_cases hv : normalizeTickers S = []
  · rw [gate_eq_of_nil env t t st S false hv]
    rw [gate_eq_of_nil env t t st S false hv]
    exact ⟨rfl, rfl, rfl⟩
  · have hndv : (normalizeTickers S).Nodup := normalizeTickers_nodup S
    have hg1 := gate_eq_of_ne_nil env t t st S false hv
    set valid := normalizeTickers S with hvalid
    set tf1 := gateToFetch env t st valid false with htf1
    set st1 := gateMergedState t st (gateFetchResult env st tf1) with hst1
    have htf1nd : tf1.Nodup := gateToFetch_nodup env t st valid false hndv
    have hfresh : ∀ x ∈ valid, tickerIsFresh env st1 t x = true := by
      intro x hx
      by_cases hmem : x ∈ tf1
      · obtain ⟨r, hrmem, hrsym, hget⟩ := gateMerged_price_mem env st tf1 t x hmem htf1nd
        rw [tickerIsFresh_some env st1 t x (t, r) hget]
        simp only [decide_eq_true_eq]
        have hpos := freshnessWindow_pos env st1 x
        omega
      · have hxf : tickerIsFresh env st t x = true :=
          gateToFetch_false_not_mem env t st valid x hx hmem
        have hi : dictGet st1.info x = dictGet st.info x := by
          rw [hst1]
          exact gateFetchResult_info_not_mem env st tf1 x hmem
        have hp : dictGet st1.price x = dictGet st.price x := by
          rw [hst1]
          exact gateMerged_price_not_mem env st tf1 t x hmem
        rw [tickerIsFresh_congr env t x st1 st hi hp]
        exact hxf
    have htf2 : gateToFetch env t st1 valid false = [] := by
      unfold gateToFetch
      rw [if_neg (by simp : ¬ (false = true))]
      rw [List.filter_eq_nil_iff]
      intro a ha
      simp [hfresh a ha]
    have hmerge : gateMergedState t st1 (gateFetchResult env st1 []) = st1 := rfl
    have hg2 := gate_eq_of_ne_nil env t t st1 S false hv
    rw [htf2] at hg2
    rw [hmerge] at hg2
    rw [hg1]
    dsimp only
    rw [hg2]
    exact ⟨rfl, rfl, rfl⟩

theorem gateToFetch_not_mem_fresh (env : FetchEnv) (now : Int) (st : CacheState)
    (valid : List String) (force : Bool) (x : String) (hx : x ∈ valid)
    (h : x ∉ gateToFetch env now st valid force) : tickerIsFresh env st now x = true := by
  cases force
  · exact gateToFetch_false_not_mem env now st valid x hx h
  · exact absurd (show x ∈ gateToFetch env now st valid true from by
      unfold gateToFetch; rw [if_pos rfl]; exact hx) h

/-- C2: Input normalization and order preservation.  For any input list,
arbitrary force flag and coherent cache (entries keyed by their record's
symbol — the invariant the code maintains), the returned records carry
exactly the normalized symbols — uppercased, falsy entries dropped,
de-duplicated keeping the first occurrence — one record per surviving
symbol, in that order; an input whose normalization is empty returns the
empty list with no side effects and no remote call. -/
theorem gate_normalization_order (env : FetchEnv) (now nowTs : Int) (st : CacheState)
    (S : List String) (force : Bool)
    (hcoh : ∀ p ∈ st.price, (p.2.2).symbol = p.1) :
    (get_market_price_data env now nowTs st S force).result.map (fun r => r.symbol)
      = specNormalize S
    ∧ (specNormalize S = [] →
        get_market_price_data env now nowTs st S force = ⟨[], st, []⟩) := by
  rw [← normalizeTickers_eq_spec]
  by_cases hv : normalizeTickers S = []
  · rw [gate_eq_of_nil env now nowTs st S force hv]
    exact ⟨by simp [hv], fun _ => rfl⟩
  · refine ⟨?_, fun h => absurd h hv⟩
    have hndv : (normalizeTickers S).Nodup := normalizeTickers_nodup S
    rw [gate_eq_of_ne_nil env now nowTs st S force hv]
    dsimp only
    set valid := normalizeTickers S with hvalid
    set tf := gateToFetch env now st valid force with htf
    apply filterMap_map_symbol
    intro x hx
    by_cases hmem : x ∈ tf
    · obtain ⟨r, hrmem, hrsym, hget⟩ := gateMerged_price_mem env st tf nowTs x hmem
        (gateToFetch_nodup env now st valid force hndv)
      exact ⟨r, by rw [hget]; rfl, hrsym⟩
    · have hxf : tickerIsFresh env st now x = true :=
        gateToFetch_not_mem_fresh env now st valid force x hx hmem
      obtain ⟨e, hge⟩ : ∃ e, dictGet st.price x = some e := by
        unfold tickerIsFresh at hxf
        cases hcase : dictGet st.price x with
        | none => rw [hcase] at hxf; simp at hxf
        | some e => exact ⟨e, rfl⟩
      have hmm : (x, e) ∈ st.price := dictGet_eq_some_mem st.price x e hge
      have hsym : e.2.symbol = x := hcoh (x, e) hmm
      have hget2 : dictGet (gateMergedState nowTs st (gateFetchResult env st tf)).price x
          = some e := by
        rw [gateMerged_price_not_mem env st tf nowTs x hmem]
        exact hge
      exact ⟨e.2, by rw [hget2]; rfl, hsym⟩

/-- C3: Partial-batch failure resilience.  A remote fetch failure for one
symbol of a batch yields the "Data Unavailable" placeholder (all numeric
fields `none`), caches the empty info sentinel, and does not abort the
batch: the batch still returns one record per requested ticker, in order;
and whenever the gate fetches such a symbol, the placeholder is written to
the in-memory price cache with the batch timestamp `nowTs`. -/
theorem uncached_partial_batch_resilience (env : FetchEnv) (ic : Dict InfoVal)
    (ts : List String) (t : String) (ht : t ∈ ts) (he : env.fetch t = FetchOutcome.err) :
    (get_market_price_data_uncached env ts ic).1.map (fun p => p.symbol) = ts
    ∧ unavailableRecord t ∈ (get_market_price_data_uncached env ts ic).1
    ∧ (∀ u ∈ ts, ∃ p ∈ (get_market_price_data_uncached env ts ic).1, p.symbol = u)
    ∧ dictGet (get_market_price_data_uncached env ts ic).2 t = some InfoVal.empty
    ∧ (∀ now nowTs st S force,
        t ∈ (get_market_price_data env now nowTs st S force).fetched →
        dictGet (get_market_price_data env now nowTs st S force).state.price t
          = some (nowTs, unavailableRecord t)) := by
  have hts : ts ≠ [] := by intro hh; rw [hh] at ht; simp at ht
  have hun : get_market_price_data_uncached env ts ic = uncachedGo env ts ic := by
    unfold get_market_price_data_uncached; rw [if_neg hts]
  rw [hun]
  refine ⟨uncachedGo_symbols env ts ic, ?_, ?_, uncachedGo_info_err env ts ic t ht he, ?_⟩
  · have hmap : t ∈ (uncachedGo env ts ic).1.map (fun p => p.symbol) := by
      rw [uncachedGo_symbols]; exact ht
    obtain ⟨p, hp, hps⟩ := List.mem_map.mp hmap
    obtain ⟨u, hu, hpu⟩ := uncachedGo_mem env ts ic p hp
    have hut : u = t := by
      rw [hpu, uncachedFetchOne_symbol] at hps; exact hps
    rw [hut, uncachedFetchOne_err env t he] at hpu
    exact (show p = unavailableRecord t from hpu) ▸ hp
  · intro u hu
    have hmap : u ∈ (uncachedGo env ts ic).1.map (fun p => p.symbol) := by
      rw [uncachedGo_symbols]; exact hu
    obtain ⟨p, hp, hps⟩ := List.mem_map.mp hmap
    exact ⟨p, hp, hps⟩
  · intro now nowTs st S force hmem
    by_cases hv : normalizeTickers S = []
    · rw [gate_eq_of_nil env now nowTs st S force hv] at hmem
      simp at hmem
    · rw [gate_eq_of_ne_nil env now nowTs st S force hv] at hmem ⊢
      dsimp only at hmem ⊢
      set valid := normalizeTickers S with hvalid
      set tf := gateToFetch env now st valid force with htf2
      have hndtf : tf.Nodup :=
        gateToFetch_nodup env now st valid force (normalizeTickers_nodup S)
      obtain ⟨r, hrmem, hrsym, hget⟩ := gateMerged_price_mem env st tf nowTs t hmem hndtf
      have htfne : tf ≠ [] := by intro hh; rw [hh] at hmem; simp at hmem
      have hfr : (gateFetchResult env st tf).1 = (uncachedGo env tf st.info).1 := by
        unfold gateFetchResult get_market_price_data_uncached
        rw [if_neg htfne, if_neg htfne]
      rw [hfr] at hrmem
      obtain ⟨u, hu, hru⟩ := uncachedGo_mem env tf st.info r hrmem
      have hut : u = t := by
        rw [hru, uncachedFetchOne_symbol] at hrsym; exact hrsym
      rw [hut, uncachedFetchOne_err env t he] at hru
      rw [hget, show r = unavailableRecord t from hru]

/-- C4: Freshness decision.  For every non-forced call and every normalized
symbol, the symbol is served from cache (not handed to the remote fetch)
iff it has a cache entry aged strictly less than the freshness window; the
window is `CACHE_OPEN_MARKET_SECONDS` (300 s) when its market is open and
`CACHE_CLOSED_MARKET_SECONDS` (86400 s) when closed; a symbol with no (or
failed) static info is treated as market-open. -/
theorem freshness_decision (env : FetchEnv) (now nowTs : Int) (st : CacheState)
    (S : List String) (t : String) (ht : t ∈ normalizeTickers S) :
    (t ∉ (get_market_price_data env now nowTs st S false).fetched
       ↔ ∃ e, dictGet st.price t = some e ∧ now - e.1 < freshnessWindow env st t)
    ∧ (dictGet st.info t = none → marketOpenFor env st t = true)
    ∧ (dictGet st.info t = some InfoVal.empty → marketOpenFor env st t = true)
    ∧ (marketOpenFor env st t = true → freshnessWindow env st t = CACHE_OPEN_MARKET_SECONDS)
    ∧ (marketOpenFor env st t = false →
        freshnessWindow env st t = CACHE_CLOSED_MARKET_SECONDS) := by
  have hv : normalizeTickers S ≠ [] := by
    intro hh; rw [hh] at ht; simp at ht
  refine ⟨?_, ?_, ?_, ?_, ?_⟩
  · rw [gate_eq_of_ne_nil env now nowTs st S false hv]
    dsimp only
    unfold gateToFetch
    rw [if_neg (by simp : ¬ (false = true))]
    constructor
    · intro hmem
      have hfr : tickerIsFresh env st now t = true := by
        by_contra hc
        have hfalse : tickerIsFresh env st now t = false := by
          cases hb : tickerIsFresh env st now t
          · rfl
          · exact absurd hb hc
        exact hmem (List.mem_filter.mpr ⟨ht, show (! tickerIsFresh env st now t) = true by
          rw [hfalse]; rfl⟩)
      unfold tickerIsFresh at hfr
      cases hcase : dictGet st.price t with
      | none => rw [hcase] at hfr; simp at hfr
      | some e =>
        rw [hcase] at hfr
        simp only [decide_eq_true_eq] at hfr
        exact ⟨e, rfl, hfr⟩
    · intro he hmem
      obtain ⟨e, hget, hlt⟩ := he
      have h6 : (! tickerIsFresh env st now t) = true := (List.mem_filter.mp hmem).2
      rw [tickerIsFresh_some env st now t e hget] at h6
      simp only [Bool.not_eq_true', decide_eq_false_iff_not] at h6
      exact h6 hlt
  · intro h2; unfold marketOpenFor; rw [h2]
  · intro h2; unfold marketOpenFor; rw [h2]
  · intro h4; unfold freshnessWindow; rw [if_pos h4]
  · intro h5
    unfold freshnessWindow
    rw [if_neg (show ¬ (marketOpenFor env st t = true) by simp [h5])]

/-- C9, counterexample: with the optional `pandas_market_calendars`
dependency unavailable (`mcal is None`), `get_market_status` returns
`is_open = False` and status `"closed"` — not the "assume open" the claim
states for every internal error. -/
theorem market_status_unavailable_counterexample :
    (get_market_status ⟨false, fun _ => MCalOutcome.err⟩ "NYSE").is_open = false
    ∧ (get_market_status ⟨false, fun _ => MCalOutcome.err⟩ "NYSE").status = "closed" :=
  ⟨rfl, rfl⟩

/-- C9, amended: `get_market_status` never raises (it is a total function
of its environment); an exception inside the calendar computation degrades
to status `"unknown"` with `is_open = True`; but when the calendar library
failed to import it returns status `"closed"` with `is_open = False` (and
no calendar key). -/
theorem market_status_amended (env : MarketEnv) (name : String) :
    (env.mcalAvailable = true →
      env.query (if name = "GDAX" then "CME_Crypto" else name) = MCalOutcome.err →
      (get_market_status env name).is_open = true
      ∧ (get_market_status env name).status = "unknown")
    ∧ (env.mcalAvailable = false →
      get_market_status env name = ⟨"closed", false, none⟩) := by
  constructor
  · intro ha hq
    simp only [get_market_status]
    rw [ha, hq]
    simp
  · intro ha
    simp only [get_market_status]
    rw [ha]
    simp

theorem get_ticker_info_preserves (env : FetchEnv) (ic : Dict InfoVal) (t u : String)
    (v : InfoVal) (h : dictGet ic t = some v) :
    dictGet (get_ticker_info env ic u).2.1 t = some v := by
  unfold get_ticker_info
  cases hcase : dictGet ic u with
  | some w => exact h
  | none =>
    have hne : ¬ t = u := by
      intro hh
      rw [hh, hcase] at h
      exact Option.noConfusion h
    cases hf : env.fetch u with
    | err => exact (dictGet_insert_ne ic u InfoVal.empty t hne).trans h
    | ok oi =>
      cases oi with
      | none => exact (dictGet_insert_ne ic u InfoVal.empty t hne).trans h
      | some info =>
        dsimp only
        by_cases hc : info.currency = none
        · rw [if_pos hc]
          exact (dictGet_insert_ne ic u InfoVal.empty t hne).trans h
        · rw [if_neg hc]
          exact (dictGet_insert_ne ic u _ t hne).trans h

theorem infoCallsChain_preserves (env : FetchEnv) (t : String) (v : InfoVal) :
    ∀ (us : List String) (ic : Dict InfoVal), dictGet ic t = some v →
      dictGet (infoCallsChain env ic us) t = some v := by
  intro us
  induction us with
  | nil => intro ic h; exact h
  | cons u us ih =>
    intro ic h
    exact ih _ (get_ticker_info_preserves env ic t u v h)

/-- C10: Failed-lookup asymmetry.  A first `get_ticker_info` call for an
uncached symbol whose remote lookup fails (exception, falsy response, or a
response without a currency field) returns `None` after performing a remote
call and caches the empty sentinel; afterwards, every later
`get_ticker_info` call for that symbol in the same process — regardless of
interleaved `get_ticker_info` calls for other symbols — performs no remote
call and returns the cached empty record rather than `None`. -/
theorem info_failed_lookup_asymmetry (env : FetchEnv) (ic : Dict InfoVal) (t : String)
    (hmiss : dictGet ic t = none)
    (hfail : env.fetch t = FetchOutcome.err ∨ env.fetch t = FetchOutcome.ok none
      ∨ ∃ i, env.fetch t = FetchOutcome.ok (some i) ∧ i.currency = none) :
    (get_ticker_info env ic t).1 = none
    ∧ (get_ticker_info env ic t).2.2 = true
    ∧ dictGet (get_ticker_info env ic t).2.1 t = some InfoVal.empty
    ∧ (∀ us, get_ticker_info env (infoCallsChain env (get_ticker_info env ic t).2.1 us) t
        = (some InfoVal.empty, infoCallsChain env (get_ticker_info env ic t).2.1 us, false)) := by
  have hstep : get_ticker_info env ic t = (none, dictInsert ic t InfoVal.empty, true) := by
    unfold get_ticker_info
    rw [hmiss]
    rcases hfail with hf | hf | ⟨i, hf, hc⟩
    · rw [hf]
    · rw [hf]
    · rw [hf]
      dsimp only
      rw [if_pos hc]
  refine ⟨by rw [hstep], by rw [hstep], ?_, ?_⟩
  · rw [hstep]
    exact dictGet_insert_self ic t InfoVal.empty
  · intro us
    rw [hstep]
    dsimp only
    have hpres : dictGet (infoCallsChain env (dictInsert ic t InfoVal.empty) us) t
        = some InfoVal.empty :=
      infoCallsChain_preserves env t InfoVal.empty us _ (dictGet_insert_self ic t InfoVal.empty)
    unfold get_ticker_info
    rw [hpres]

theorem mem_unique_of_nodup_keys {α : Type} (l : Dict α)
    (hnd : (l.map (fun p => p.1)).Nodup) (k : String) (v1 v2 : α)
    (h1 : (k, v1) ∈ l) (h2 : (k, v2) ∈ l) : v1 = v2 := by
  have e1 := dictGet_eq_some_of_mem l k v1 hnd h1
  have e2 := dictGet_eq_some_of_mem l k v2 hnd h2
  rw [e1] at e2
  exact Option.some.inj e2

theorem load_key_not_mem (now : Int) (db : Db)
    (hnd : (db.rows.map (fun r => r.1)).Nodup) (s : String) (ts : Int) (j : JVal)
    (hmem : (s, (j, ts)) ∈ db.rows) (hlt : ts < now - CACHE_LOAD_DURATION_SECONDS) :
    s ∉ ((db.rows.filter
        (fun r => decide (r.2.2 ≥ now - CACHE_LOAD_DURATION_SECONDS))).map (fun r => r.1)) := by
  intro hkey
  obtain ⟨r, hr, hr1⟩ := List.mem_map.mp hkey
  have hrr := List.mem_filter.mp hr
  have hmem2 : (s, r.2) ∈ db.rows := by
    rw [← hr1]
    exact hrr.1
  have hv : r.2 = (j, ts) := mem_unique_of_nodup_keys db.rows hnd s r.2 (j, ts) hmem2 hmem
  have hdec := hrr.2
  rw [hv] at hdec
  simp only [decide_eq_true_eq] at hdec
  have : ts ≥ now - CACHE_LOAD_DURATION_SECONDS := hdec
  omega

/-- C5, counterexample: an inaccessible database path whose parent
directory cannot be created makes `__init__` raise — `mkdir` at
db_manager.py line 31 throws an `OSError` outside the
`except sqlite3.Error` catch, so opening neither logs a
`StorageUnavailable` condition nor degrades: it propagates the exception
uncaught, refuting "for every inaccessible database path, opening the
persistent store fails with a logged StorageUnavailable condition and
never crashes the process". -/
theorem db_open_mkdir_crash_counterexample :
    DbManager.openDb OpenOutcome.mkdirOSError 0 = Except.error () := rfl

/-- C5, amended: when an inaccessible path surfaces as a `sqlite3.Error`
from `sqlite3.connect`, opening is caught and logged, the run proceeds
memory-only, and all subsequent store operations are no-ops — load returns
the empty mapping and an unchanged manager, save, prune and close change
nothing, prune reports zero deleted rows; but when the parent-directory
`mkdir` raises an `OSError` (e.g. `PermissionError`), the exception
escapes `__init__` uncaught. -/
theorem db_unavailable_noop (now : Int) (cache : Dict (Int × PyVal)) (m : DbManager)
    (h : m.conn = none) :
    DbManager.openDb OpenOutcome.sqliteError now = Except.ok ⟨none⟩
    ∧ load_cache_from_db now m = (m, [])
    ∧ save_cache_to_db cache m = m
    ∧ prune_expired_entries now m = (m, 0)
    ∧ DbManager.closeDb m = m
    ∧ DbManager.openDb OpenOutcome.mkdirOSError now = Except.error () := by
  obtain ⟨c⟩ := m
  simp only at h
  subst h
  exact ⟨rfl, rfl, rfl, rfl, rfl, rfl⟩

/-- C6: Load filtering.  `load_cache_from_db` leaves the store untouched
and returns, as a mapping symbol to (timestamp, payload), exactly the
persisted records with `timestamp ≥ now - CACHE_LOAD_DURATION_SECONDS`
(24 hours); a record older than that is absent from the returned mapping
even though its row remains in the table (loading deletes nothing). -/
theorem db_load_filtering (now : Int) (db : Db)
    (hnd : (db.rows.map (fun r => r.1)).Nodup) :
    (load_cache_from_db now ⟨some db⟩).1 = ⟨some db⟩
    ∧ (∀ s ts j, (s, (j, ts)) ∈ db.rows →
        (dictGet (load_cache_from_db now ⟨some db⟩).2 s = some (ts, PyVal.json j)
          ↔ ts ≥ now - CACHE_LOAD_DURATION_SECONDS))
    ∧ (∀ s ts j, (s, (j, ts)) ∈ db.rows → ts < now - CACHE_LOAD_DURATION_SECONDS →
        dictGet (load_cache_from_db now ⟨some db⟩).2 s = none ∧ (s, (j, ts)) ∈ db.rows) := by
  have hndf : (((db.rows.filter
      (fun r => decide (r.2.2 ≥ now - CACHE_LOAD_DURATION_SECONDS))).map
        (fun r => r.1)).Nodup) :=
    List.Nodup.sublist
      ((List.filter_sublist db.rows).map (fun (r : String × JVal × Int) => r.1)) hnd
  refine ⟨rfl, ?_, ?_⟩
  · intro s ts j hmem
    constructor
    · intro hget
      by_contra hge
      have hlt : ts < now - CACHE_LOAD_DURATION_SECONDS := by omega
      have hnotkey := load_key_not_mem now db hnd s ts j hmem hlt
      have hnone : dictGet ((db.rows.filter
          (fun r => decide (r.2.2 ≥ now - CACHE_LOAD_DURATION_SECONDS))).foldl
            (fun d r => dictInsert d r.1 (r.2.2, loads r.2.1)) []) s = none :=
        foldInsert_get_not_mem (fun (r : String × JVal × Int) => r.1)
          (fun (r : String × JVal × Int) => (r.2.2, loads r.2.1)) _ [] s hnotkey
      have hget2 : dictGet ((db.rows.filter
          (fun r => decide (r.2.2 ≥ now - CACHE_LOAD_DURATION_SECONDS))).foldl
            (fun d r => dictInsert d r.1 (r.2.2, loads r.2.1)) []) s
          = some (ts, PyVal.json j) := hget
      rw [hget2] at hnone
      exact Option.noConfusion hnone
    · intro hge
      have hmemf : (s, (j, ts)) ∈ db.rows.filter
          (fun r => decide (r.2.2 ≥ now - CACHE_LOAD_DURATION_SECONDS)) :=
        List.mem_filter.mpr ⟨hmem, by simp only [decide_eq_true_eq]; exact hge⟩
      exact foldInsert_get_mem (fun r => r.1) (fun r => (r.2.2, loads r.2.1))
        _ [] (s, (j, ts)) hmemf hndf
  · intro s ts j hmem hlt
    refine ⟨?_, hmem⟩
    have hnotkey := load_key_not_mem now db hnd s ts j hmem hlt
    exact foldInsert_get_not_mem (fun (r : String × JVal × Int) => r.1)
          (fun (r : String × JVal × Int) => (r.2.2, loads r.2.1)) _ [] s hnotkey

/-- C7: Pruning.  `_prune_expired_entries`, which runs once inside
`__init__`, deletes from the table exactly the rows with
`timestamp < now - CACHE_PRUNE_EXPIRY_SECONDS` (7 days) and reports the
number of deleted rows; opening over an existing table yields precisely the
pruned manager, with a live connection. -/
theorem db_prune (now : Int) (db : Db) :
    (∀ db2, (prune_expired_entries now ⟨some db⟩).1.conn = some db2 →
        ∀ p, p ∈ db2.rows ↔ (p ∈ db.rows ∧ ¬ p.2.2 < now - CACHE_PRUNE_EXPIRY_SECONDS))
    ∧ (prune_expired_entries now ⟨some db⟩).2
        = (db.rows.filter (fun r => decide (r.2.2 < now - CACHE_PRUNE_EXPIRY_SECONDS))).length
    ∧ DbManager.openDb (OpenOutcome.opened db) now
        = Except.ok (prune_expired_entries now ⟨some db⟩).1
    ∧ (prune_expired_entries now ⟨some db⟩).1.conn ≠ none := by
  refine ⟨?_, rfl, rfl, ?_⟩
  · intro db2 h p
    have hdb2 : db2 = ⟨db.rows.filter
        (fun r => ! decide (r.2.2 < now - CACHE_PRUNE_EXPIRY_SECONDS))⟩ := by
      have h' : some (⟨db.rows.filter
          (fun r => ! decide (r.2.2 < now - CACHE_PRUNE_EXPIRY_SECONDS))⟩ : Db)
          = some db2 := h
      injection h' with h'
      exact h'.symm
    subst hdb2
    simp [List.mem_filter]
  · intro hc
    have hc' : some (⟨db.rows.filter
        (fun r => ! decide (r.2.2 < now - CACHE_PRUNE_EXPIRY_SECONDS))⟩ : Db)
        = (none : Option Db) := hc
    exact Option.noConfusion hc'

/-- C8: Persistence round-trip.  Saving a cache entry with a
JSON-serializable payload and then loading within the 24-hour window yields
the entry back under its symbol: same timestamp (the datetime to unix-float
conversion and back is the identity here) and a payload equal to the
original. -/
theorem db_save_load_roundtrip (db : Db) (hnd : (db.rows.map (fun r => r.1)).Nodup)
    (s : String) (ts : Int) (p : PyVal) (j : JVal) (hser : dumps p = some j)
    (now : Int) (hwin : ts ≥ now - CACHE_LOAD_DURATION_SECONDS) :
    dictGet (load_cache_from_db now (save_cache_to_db [(s, (ts, p))] ⟨some db⟩)).2 s
      = some (ts, p) := by
  have hp : p = PyVal.json j := by
    cases p with
    | json j0 =>
      injection hser with h0
      rw [h0]
    | other => exact Option.noConfusion hser
  subst hp
  have hsave : save_cache_to_db [(s, (ts, PyVal.json j))] ⟨some db⟩
      = ⟨some ⟨dictInsert db.rows s (j, ts)⟩⟩ := rfl
  rw [hsave]
  have hnd2 : ((dictInsert db.rows s (j, ts)).map (fun r => r.1)).Nodup :=
    dictKeys_insert_nodup db.rows s (j, ts) hnd
  have hmem : (s, (j, ts)) ∈ dictInsert db.rows s (j, ts) :=
    dictGet_eq_some_mem _ s (j, ts) (dictGet_insert_self db.rows s (j, ts))
  have hmemf : (s, (j, ts)) ∈ (dictInsert db.rows s (j, ts)).filter
      (fun r => decide (r.2.2 ≥ now - CACHE_LOAD_DURATION_SECONDS)) :=
    List.mem_filter.mpr ⟨hmem, by simp only [decide_eq_true_eq]; exact hwin⟩
  have hndf : (((dictInsert db.rows s (j, ts)).filter
      (fun r => decide (r.2.2 ≥ now - CACHE_LOAD_DURATION_SECONDS))).map
        (fun r => r.1)).Nodup :=
    List.Nodup.sublist
      ((List.filter_sublist (dictInsert db.rows s (j, ts))).map
        (fun (r : String × JVal × Int) => r.1)) hnd2
  exact foldInsert_get_mem (fun r => r.1) (fun r => (r.2.2, loads r.2.1))
    _ [] (s, (j, ts)) hmemf hndf

/-! ### Concrete witness data -/

/-- Remote oracle for witnesses: AAPL resolves with full data, every other
symbol (e.g. BADTICKER) raises during fetch. -/
def witnessRemote : String → FetchOutcome := fun s =>
  if s = "AAPL" then
    FetchOutcome.ok (some ⟨some "USD", some "NMS", some "Apple Inc.", some "Apple Inc.",
      some 100, none, some 99, some 98, some 101, some 80, some 120⟩)
  else FetchOutcome.err

/-- Witness environment: calendar library available, every session open. -/
def witnessEnv : FetchEnv :=
  ⟨witnessRemote, ⟨true, fun _ => MCalOutcome.session 0 1000000 500⟩⟩

/-- A cached AAPL record for the freshness-boundary witness. -/
def witnessRecord : PriceRecord :=
  ⟨"AAPL", "Apple Inc.", some 100, some 99, some 98, some 101, some 80, some 120⟩

/-- Cache holding AAPL stamped at instant 0, with no static info. -/
def witnessState : CacheState := ⟨[("AAPL", (0, witnessRecord))], []⟩

/-- A table with a 1-hour-old row and a 25-hour-old row (instants relative
to `now = 0`). -/
def witnessDb : Db := ⟨[("AAPL", (JVal.jnum 1, -3600)), ("OLD", (JVal.jnum 2, -90000))]⟩

/-- A table with a 6-day-old row and an 8-day-old row. -/
def witnessDb7 : Db := ⟨[("NEW", (JVal.jnum 1, -518400)), ("ANCIENT", (JVal.jnum 2, -691200))]⟩

/-! ### Witnesses -/

/-- Witness for C2 at the spec's example `["aapl","MSFT","aapl"]`. -/
theorem gate_normalization_order_witness :
    (∀ p ∈ (⟨[], []⟩ : CacheState).price, (p.2.2).symbol = p.1)
    ∧ (get_market_price_data witnessEnv 0 0 ⟨[], []⟩ ["aapl", "MSFT", "aapl"] false).result.map
        (fun r => r.symbol) = specNormalize ["aapl", "MSFT", "aapl"]
    ∧ specNormalize ["aapl", "MSFT", "aapl"] = ["AAPL", "MSFT"] :=
  ⟨fun p hp => absurd hp (List.not_mem_nil p),
   (gate_normalization_order witnessEnv 0 0 ⟨[], []⟩ ["aapl", "MSFT", "aapl"] false
     (fun p hp => absurd hp (List.not_mem_nil p))).1,
   by decide⟩

/-- Witness for C3 at the spec's example `["AAPL","BADTICKER"]`. -/
theorem uncached_partial_batch_resilience_witness :
    ("BADTICKER" ∈ (["AAPL", "BADTICKER"] : List String))
    ∧ witnessEnv.fetch "BADTICKER" = FetchOutcome.err
    ∧ (get_market_price_data_uncached witnessEnv ["AAPL", "BADTICKER"] []).1.map
        (fun p => p.symbol) = ["AAPL", "BADTICKER"]
    ∧ unavailableRecord "BADTICKER"
        ∈ (get_market_price_data_uncached witnessEnv ["AAPL", "BADTICKER"] []).1
    ∧ dictGet (get_market_price_data_uncached witnessEnv ["AAPL", "BADTICKER"] []).2 "BADTICKER"
        = some InfoVal.empty :=
  ⟨by decide, rfl,
   (uncached_partial_batch_resilience witnessEnv [] ["AAPL", "BADTICKER"] "BADTICKER"
     (by decide) rfl).1,
   (uncached_partial_batch_resilience witnessEnv [] ["AAPL", "BADTICKER"] "BADTICKER"
     (by decide) rfl).2.1,
   (uncached_partial_batch_resilience witnessEnv [] ["AAPL", "BADTICKER"] "BADTICKER"
     (by decide) rfl).2.2.2.1⟩

/-- Witness for C4 at the spec's freshness boundary: with the market open,
an entry aged 299 s is served from cache, one aged 301 s triggers a fetch. -/
theorem freshness_decision_witness :
    ("AAPL" ∈ normalizeTickers ["AAPL"])
    ∧ "AAPL" ∉ (get_market_price_data witnessEnv 299 299 witnessState ["AAPL"] false).fetched
    ∧ "AAPL" ∈ (get_market_price_data witnessEnv 301 301 witnessState ["AAPL"] false).fetched :=
  ⟨by decide,
   (freshness_decision witnessEnv 299 299 witnessState ["AAPL"] "AAPL" (by decide)).1.mpr
     ⟨(0, witnessRecord), by decide, by decide⟩,
   by decide⟩

/-- Witness for C5 (amended): a manager whose open was caught as a
`sqlite3.Error`, and the uncaught `mkdir` crash path. -/
theorem db_unavailable_noop_witness :
    ((⟨none⟩ : DbManager).conn = none)
    ∧ (DbManager.openDb OpenOutcome.sqliteError 0 = Except.ok ⟨none⟩
      ∧ load_cache_from_db 0 ⟨none⟩ = (⟨none⟩, [])
      ∧ save_cache_to_db [] ⟨none⟩ = ⟨none⟩
      ∧ prune_expired_entries 0 ⟨none⟩ = (⟨none⟩, 0)
      ∧ DbManager.closeDb ⟨none⟩ = ⟨none⟩
      ∧ DbManager.openDb OpenOutcome.mkdirOSError 0 = Except.error ()) :=
  ⟨rfl, db_unavailable_noop 0 [] ⟨none⟩ rfl⟩

/-- Witness for C6: at `now = 0` the 1-hour-old row is loaded, the
25-hour-old row is not, yet its row is still persisted. -/
theorem db_load_filtering_witness :
    ((witnessDb.rows.map (fun r => r.1)).Nodup)
    ∧ (dictGet (load_cache_from_db 0 ⟨some witnessDb⟩).2 "AAPL"
        = some (-3600, PyVal.json (JVal.jnum 1))
        ↔ (-3600 : Int) ≥ 0 - CACHE_LOAD_DURATION_SECONDS)
    ∧ (dictGet (load_cache_from_db 0 ⟨some witnessDb⟩).2 "OLD" = none
        ∧ ("OLD", (JVal.jnum 2, (-90000 : Int))) ∈ witnessDb.rows) :=
  ⟨by decide,
   (db_load_filtering 0 witnessDb (by decide)).2.1 "AAPL" (-3600) (JVal.jnum 1)
     (List.mem_cons_self _ _),
   (db_load_filtering 0 witnessDb (by decide)).2.2 "OLD" (-90000) (JVal.jnum 2)
     (List.mem_cons_of_mem _ (List.mem_cons_self _ _)) (by decide)⟩

/-- Witness for C7: after pruning at `now = 0`, the 6-day-old row is the
sole survivor — the 8-day-old row is gone — and one deletion is reported. -/
theorem db_prune_witness :
    (("NEW", (JVal.jnum 1, (-518400 : Int)))
        ∈ (Db.mk (witnessDb7.rows.filter
            (fun r => ! decide (r.2.2 < 0 - CACHE_PRUNE_EXPIRY_SECONDS)))).rows
      ↔ (("NEW", (JVal.jnum 1, (-518400 : Int))) ∈ witnessDb7.rows
          ∧ ¬ (-518400 : Int) < 0 - CACHE_PRUNE_EXPIRY_SECONDS))
    ∧ (prune_expired_entries 0 ⟨some witnessDb7⟩).2
        = (witnessDb7.rows.filter
            (fun r => decide (r.2.2 < 0 - CACHE_PRUNE_EXPIRY_SECONDS))).length
    ∧ (Db.mk (witnessDb7.rows.filter
          (fun r => ! decide (r.2.2 < 0 - CACHE_PRUNE_EXPIRY_SECONDS)))).rows
        = [("NEW", (JVal.jnum 1, -518400))]
    ∧ (prune_expired_entries 0 ⟨some witnessDb7⟩).2 = 1 :=
  ⟨(db_prune 0 witnessDb7).1 _ rfl ("NEW", (JVal.jnum 1, -518400)),
   (db_prune 0 witnessDb7).2.1, rfl, rfl⟩

/-- Witness for C8: save a fresh entry into the witness table and read it
back at `now = 0`. -/
theorem db_save_load_roundtrip_witness :
    ((witnessDb.rows.map (fun r => r.1)).Nodup)
    ∧ dumps (PyVal.json (JVal.jstr "payload")) = some (JVal.jstr "payload")
    ∧ dictGet (load_cache_from_db 0 (save_cache_to_db
        [("MSFT", ((-60 : Int), PyVal.json (JVal.jstr "payload")))] ⟨some witnessDb⟩)).2 "MSFT"
      = some (-60, PyVal.json (JVal.jstr "payload")) :=
  ⟨by decide, rfl,
   db_save_load_roundtrip witnessDb (by decide) "MSFT" (-60) (PyVal.json (JVal.jstr "payload"))
     (JVal.jstr "payload") rfl 0 (by decide)⟩

/-- Witness for C9 (amended): a query exception yields unknown/open; an
unavailable calendar library yields closed/not-open. -/
theorem market_status_amended_witness :
    ((get_market_status ⟨true, fun _ => MCalOutcome.err⟩ "NYSE").is_open = true
      ∧ (get_market_status ⟨true, fun _ => MCalOutcome.err⟩ "NYSE").status = "unknown")
    ∧ get_market_status ⟨false, fun _ => MCalOutcome.err⟩ "XNYS" = ⟨"closed", false, none⟩ :=
  ⟨(market_status_amended ⟨true, fun _ => MCalOutcome.err⟩ "NYSE").1 rfl rfl,
   (market_status_amended ⟨false, fun _ => MCalOutcome.err⟩ "XNYS").2 rfl⟩

/-- Witness for C10: BADTICKER fails its first lookup (returning `None`),
then — even after an interleaved lookup of AAPL — a repeat lookup returns
the cached empty record without a remote call. -/
theorem info_failed_lookup_asymmetry_witness :
    (dictGet ([] : Dict InfoVal) "BADTICKER" = none)
    ∧ witnessEnv.fetch "BADTICKER" = FetchOutcome.err
    ∧ (get_ticker_info witnessEnv [] "BADTICKER").1 = none
    ∧ get_ticker_info witnessEnv
        (infoCallsChain witnessEnv (get_ticker_info witnessEnv [] "BADTICKER").2.1 ["AAPL"])
        "BADTICKER"
      = (some InfoVal.empty,
         infoCallsChain witnessEnv (get_ticker_info witnessEnv [] "BADTICKER").2.1 ["AAPL"],
         false) :=
  ⟨rfl, rfl,
   (info_failed_lookup_asymmetry witnessEnv [] "BADTICKER" rfl (Or.inl rfl)).1,
   (info_failed_lookup_asymmetry witnessEnv [] "BADTICKER" rfl (Or.inl rfl)).2.2.2 ["AAPL"]⟩

end StocksTUI
